import Mathlib

/-!
Shallow embedding of the orchestration, retry, sequencing and export logic of
the school-of-standard book generator (src/services/ai.ts, the application
shell, and the document exporter), together with theorems settling the
frozen claims about that code.
-/

namespace SOS

/-! ## Data model (src/types.ts) -/

/-- A chapter entry of an outline: title plus short description. -/
structure ChapterOutline where
  title : String
  description : String
deriving DecidableEq, Repr

/-- A full book outline as produced by the outline step. -/
structure BookOutline where
  title : String
  subtitle : String
  description : String
  backCoverCopy : String
  chapters : List ChapterOutline
deriving DecidableEq, Repr

/-- Generated chapter: title plus Markdown body. -/
structure ChapterContent where
  title : String
  content : String
deriving DecidableEq, Repr

/-- The application steps of the wizard (enum AppStep in src/types.ts). -/
inductive AppStep
  | INPUT
  | OUTLINE_LOADING
  | OUTLINE_REVIEW
  | GENERATING
  | COMPLETED
  | ERROR
deriving DecidableEq, Repr

/-! ## Provider calls and the timeout wrapper (src/services/ai.ts) -/

/-- A provider network call, modelled by the wall-clock duration it would
take to settle and the value or error it would settle with. -/
structure Call (α : Type) where
  dur : Nat
  result : Except String α
deriving Repr

/-- Embedding of `withTimeout` (ai.ts line 88): `Promise.race` between the
call and a timer that rejects after `ms` milliseconds.  The race resolves
with the call's own outcome exactly when the call settles strictly before
the timer fires; otherwise it rejects with the timeout error.  The losing
promise is not aborted, merely ignored. -/
def withTimeout {α : Type} (c : Call α) (ms : Nat) : Except String α :=
  if c.dur < ms then c.result
  else Except.error ("Timeout after " ++ toString ms ++ "ms")

/-! ## Fallback orchestration (ai.ts lines 249-319, 350-378) -/

/-- Ordered fallback over named provider outcomes, mirroring the sequential
try/catch chain of `generateBookOutline`: on a success return it at once;
on a failure push "Name: message" onto the error list and move to the next
provider.  Besides the result (the first success, or the accumulated error
reasons when every provider failed) it returns the names of the providers
that were actually invoked, in invocation order. -/
def runFallbackGo {α : Type} :
    List (String × Except String α) → List String →
    Except (List String) α × List String
  | [], errs => (Except.error errs, [])
  | (name, r) :: rest, errs =>
    match r with
    | Except.ok v => (Except.ok v, [name])
    | Except.error e =>
      let p := runFallbackGo rest (errs ++ [name ++ ": " ++ e])
      (p.1, name :: p.2)

/-- Run the fallback chain starting from an empty error list. -/
def runFallback {α : Type} (ps : List (String × Except String α)) :
    Except (List String) α × List String :=
  runFallbackGo ps []

/-- Embedding of `generateBookOutline` (ai.ts lines 221-320): Gemini with a
120s deadline, then OpenAI (45s), DeepSeek (45s) and Ollama (120s); if all
four fail the aggregated error message is thrown. -/
def generateBookOutline (gemini openai deepseek ollama : Call BookOutline) :
    Except String BookOutline :=
  match (runFallback
      [("Gemini", withTimeout gemini 120000),
       ("OpenAI", withTimeout openai 45000),
       ("DeepSeek", withTimeout deepseek 45000),
       ("Ollama", withTimeout ollama 120000)]).1 with
  | Except.ok v => Except.ok v
  | Except.error errs =>
    Except.error ("All AI providers failed. " ++ String.intercalate ", " errs)

/-- The sentinel text returned when every chapter provider fails
(ai.ts line 378). -/
def chapterFailSentinel : String :=
  "[Error: Chapter generation failed across all providers.]"

/-- Embedding of `generateChapterContent` (ai.ts lines 322-379): Gemini with
a 120s deadline (an empty text falls through to the next provider), then
OpenAI (60s), DeepSeek (60s) and Ollama (180s); when all four attempts fail
the function does not throw but returns the sentinel string as the chapter
text. -/
def generateChapterContent (gemini openai deepseek ollama : Call String) :
    String :=
  let step4 : String :=
    match withTimeout ollama 180000 with
    | Except.ok t => t
    | Except.error _ => chapterFailSentinel
  let step3 : String :=
    match withTimeout deepseek 60000 with
    | Except.ok t => t
    | Except.error _ => step4
  let step2 : String :=
    match withTimeout openai 60000 with
    | Except.ok t => t
    | Except.error _ => step3
  match withTimeout gemini 120000 with
  | Except.ok t => if t = "" then step2 else t
  | Except.error _ => step2

/-! ## Cover image generation (ai.ts lines 383-426) -/

/-- The requested resolution tier of a cover image. -/
inductive ImgSize
  | oneK
  | twoK
  | fourK
deriving DecidableEq, Repr

/-- The image backends as the orchestrator sees them: whether a Gemini key
is configured, and for each backend the call a given prompt would produce.
Neither backend consults the requested size tier in the source (Gemini uses
a fixed 3:4 aspect ratio, DALL-E a fixed 1024x1024). -/
structure ImageEnv where
  geminiKey : Bool
  gemini : String → Call String
  openai : String → Call String

/-- Embedding of `generateCoverImage` (ai.ts lines 383-421): try Gemini
(failing at once when no key is configured), then DALL-E 3.  Note that
neither provider call is wrapped in `withTimeout`: each call is awaited for
however long it takes and its settled result used directly. -/
def generateCoverImage (env : ImageEnv) (prompt : String) (_size : ImgSize) :
    Except String String :=
  let g : Except String String :=
    if env.geminiKey then (env.gemini prompt).result
    else Except.error "No Gemini Key"
  match g with
  | Except.ok img => Except.ok img
  | Except.error _ =>
    match (env.openai prompt).result with
    | Except.ok img => Except.ok img
    | Except.error _ =>
      Except.error "Failed to generate cover image with all providers."

/-- Embedding of `editCoverImage` (ai.ts lines 423-426): the existing image
is ignored and a fresh cover is regenerated at the 1K tier. -/
def editCoverImage (env : ImageEnv) (_base64 : String) (prompt : String) :
    Except String String :=
  generateCoverImage env prompt ImgSize.oneK

/-! ## Retrying fetch (ai.ts lines 96-115, ai-utils.ts lines 23-40) -/

/-- What one fetch attempt settles with: a network-layer error or an HTTP
response with the given status code. -/
inductive FetchOutcome
  | netError : String → FetchOutcome
  | response : Nat → FetchOutcome
deriving DecidableEq, Repr

/-- The retryability test of `fetchWithRetry`: HTTP status at least 500, or
exactly 429. -/
def retryable (status : Nat) : Bool :=
  500 ≤ status || status == 429

/-- The loop body of `fetchWithRetry`.  `f` gives the outcome of the
`i`-th attempt, `retries` bounds the retry count, `acc` collects the
injected backoff delays (milliseconds) and `last` the latest error
message.  The fuel equals the number of loop iterations left. -/
def fetchGo (f : Nat → FetchOutcome) (retries : Nat) :
    Nat → Nat → List Nat → String → Except String Nat × List Nat
  | 0, _, acc, last => (Except.error last, acc)
  | fuel + 1, i, acc, _last =>
    match f i with
    | FetchOutcome.response s =>
      if retryable s then
        if i < retries then
          fetchGo f retries fuel (i + 1) (acc ++ [1000 * 2 ^ i])
            ("Server status: " ++ toString s)
        else (Except.error ("Server status: " ++ toString s), acc)
      else (Except.ok s, acc)
    | FetchOutcome.netError msg =>
      if i < retries then
        fetchGo f retries fuel (i + 1) (acc ++ [1000 * 2 ^ i]) msg
      else (Except.error msg, acc)

/-- Embedding of `fetchWithRetry`: run attempts `0..retries`; on a
retryable failure sleep `1000 * 2^i` ms before attempt `i+1`; return the
first non-retryable response (its status), or the last error when the
attempt budget is exhausted.  Returns the result plus the injected delays. -/
def fetchWithRetry (f : Nat → FetchOutcome) (retries : Nat) :
    Except String Nat × List Nat :=
  fetchGo f retries (retries + 1) 0 [] ""

/-! ## The resumable generation sequencer (App component, handleStartGeneration) -/

/-- Everything observable about one run of the chapter-generation loop: the
step the UI ends in, the chapter indices for which content was requested,
the final chapter sequence, and the sequence of intermediate chapter lists
(the value of `generatedChapters` on entry to each iteration, the last
entry being the state when the loop stops). -/
structure GenTrace where
  step : AppStep
  requested : List Nat
  chapters : List ChapterContent
  states : List (List ChapterContent)
deriving Repr

/-- Embedding of the `for` loop of `handleStartGeneration` (App lines
112-139).  `gen i` is the settled outcome of the awaited body for chapter
`i` (content generation plus the best-effort persistence calls); a success
appends a chapter titled after the outline entry, a thrown error leaves the
accumulated chapters as they are and moves the UI to the ERROR step; when
the loop runs out of outline entries the run is COMPLETED. -/
def generationLoop (outline : List ChapterOutline)
    (gen : Nat → Except String String) :
    (i : Nat) → (acc : List ChapterContent) → GenTrace
  | i, acc =>
    if h : i < outline.length then
      match gen i with
      | Except.ok c =>
        let t := generationLoop outline gen (i + 1)
          (acc ++ [{ title := (outline.get ⟨i, h⟩).title, content := c }])
        { step := t.step, requested := i :: t.requested,
          chapters := t.chapters, states := acc :: t.states }
      | Except.error _ =>
        { step := AppStep.ERROR, requested := [i],
          chapters := acc, states := [acc] }
    else
      { step := AppStep.COMPLETED, requested := [],
        chapters := acc, states := [acc] }
  termination_by i _ => outline.length - i
  decreasing_by simp_wf; omega

/-- Embedding of `handleStartGeneration` (App lines 96-158): when resuming,
start at index `generatedChapters.length` and keep the already generated
chapters; otherwise clear them and start at 0. -/
def handleStartGeneration (outline : List ChapterOutline)
    (prior : List ChapterContent) (gen : Nat → Except String String)
    (resume : Bool) : GenTrace :=
  let start := if resume then prior.length else 0
  let init := if resume then prior else []
  generationLoop outline gen start init

/-- The chapter a successful iteration for index `j` appends: titled after
the `j`-th outline entry, with the generated body. -/
def chapterAt (outline : List ChapterOutline) (f : Nat → String) (j : Nat) :
    ChapterContent :=
  { title := (outline.getD j ⟨"", ""⟩).title, content := f j }

/-! ## Wizard submission (App component, handleWizardSubmit) -/

/-- The raw parsed outline as it comes back from `generateBookOutline`,
before validation: the chapter list may be missing altogether. -/
structure RawOutline where
  title : String
  subtitle : String
  description : String
  backCoverCopy : String
  chapters : Option (List ChapterOutline)
deriving DecidableEq, Repr

/-- Embedding of the outline validation in `handleWizardSubmit` (App lines
77-93): a missing result, a missing chapter list or an empty chapter list
throws, the catch returns the UI to the INPUT step with no outline set;
otherwise the outline is accepted and the UI moves to OUTLINE_REVIEW. -/
def handleWizardSubmit (result : Option RawOutline) :
    AppStep × Option BookOutline :=
  match result with
  | none => (AppStep.INPUT, none)
  | some r =>
    match r.chapters with
    | none => (AppStep.INPUT, none)
    | some cs =>
      if cs.length = 0 then (AppStep.INPUT, none)
      else (AppStep.OUTLINE_REVIEW,
        some { title := r.title, subtitle := r.subtitle,
               description := r.description,
               backCoverCopy := r.backCoverCopy, chapters := cs })

/-! ## Markdown to word-processor blocks (exportUtils, markdownToDocxParagraphs)

Strings are handled as lists of characters so that the JS string
operations (trim, startsWith, split on a regex with a capture group) can
be embedded operation by operation. -/

/-- JS strings as character lists. -/
abbrev Chars := List Char

/-- Character list of a Lean string literal. -/
def str (s : String) : Chars := s.data

/-- Text free of line breaks (suitable as a single Markdown line). -/
abbrev noNL (s : Chars) : Prop := ∀ c ∈ s, c ≠ '\n'

/-- Text free of the emphasis metacharacters and line breaks, so that the
emphasis regex can match nothing inside it. -/
abbrev emphFree (s : Chars) : Prop := ∀ c ∈ s, c ≠ '*' ∧ c ≠ '_' ∧ c ≠ '\n'

/-- The whitespace characters relevant to `String.prototype.trim` for the
inputs at hand. -/
def isWS (c : Char) : Bool :=
  c = ' ' || c = '\t' || c = '\n' || c = '\r'

/-- Embedding of `line.trim()`: strip whitespace from both ends. -/
def trim (s : Chars) : Chars :=
  ((s.dropWhile isWS).reverse.dropWhile isWS).reverse

/-- Embedding of `s.replace(pat, rep)` for a non-empty plain-string
pattern: replace the first occurrence only. -/
def replaceFirst (pat rep : Chars) : Chars → Chars
  | [] => []
  | c :: cs =>
    if pat.isPrefixOf (c :: cs) then rep ++ (c :: cs).drop pat.length
    else c :: replaceFirst pat rep cs

/-- Embedding of `markdown.split('\n')`. -/
def splitLines : Chars → List Chars
  | [] => [[]]
  | c :: cs =>
    if c = '\n' then [] :: splitLines cs
    else
      match splitLines cs with
      | [] => [[c]]
      | l :: ls => (c :: l) :: ls

/-- Lazy search for the closing delimiter: split `s` at the earliest
occurrence of `close`, returning the characters before it and the
characters after it (the semantics of the reluctant `.*?` followed by the
delimiter). -/
def findClose (close : Chars) : Chars → Option (Chars × Chars)
  | [] => none
  | c :: cs =>
    if close.isPrefixOf (c :: cs) then some ([], (c :: cs).drop close.length)
    else
      match findClose close cs with
      | some (inner, rest) => some (c :: inner, rest)
      | none => none

/-- Try to match one delimited span (`delim` + lazy inner + `delim`) at the
start of `s`; on success return the full matched text and the remainder. -/
def matchDelim (delim : Chars) (s : Chars) : Option (Chars × Chars) :=
  if delim.isPrefixOf s then
    match findClose delim (s.drop delim.length) with
    | some (inner, rest) => some (delim ++ inner ++ delim, rest)
    | none => none
  else none

/-- Try the four regex alternatives of
`/(\*\*.*?\*\*|__.*?__|\*.*?\*|_.*?_)/` at the start of `s`, in the
alternation order the regex specifies: double-asterisk, double-underscore,
single-asterisk, single-underscore. -/
def matchEmphAt (s : Chars) : Option (Chars × Chars) :=
  (matchDelim (str "**") s).orElse fun _ =>
  (matchDelim (str "__") s).orElse fun _ =>
  (matchDelim (str "*") s).orElse fun _ =>
  matchDelim (str "_") s

/-- Scan left to right for the first position at which the emphasis regex
matches; return the unmatched head, the matched text and the remainder. -/
def findEmph : Chars → Option (Chars × Chars × Chars)
  | [] => none
  | c :: cs =>
    match matchEmphAt (c :: cs) with
    | some (m, rest) => some ([], m, rest)
    | none =>
      match findEmph cs with
      | some (pre, m, rest) => some (c :: pre, m, rest)
      | none => none

/-- The loop of `trimmed.split(regex)` where the regex has one capture
group: JS alternates the unmatched chunks with the captured matches.
Fuel-driven; every match consumes at least two characters, so fuel
`s.length` always suffices. -/
def splitEmphGo : Nat → Chars → List Chars
  | 0, s => [s]
  | fuel + 1, s =>
    match findEmph s with
    | none => [s]
    | some (pre, m, rest) => pre :: m :: splitEmphGo fuel rest

/-- Embedding of
`trimmed.split(/(\*\*.*?\*\*|__.*?__|\*.*?\*|_.*?_)/g)`. -/
def splitEmph (s : Chars) : List Chars :=
  splitEmphGo s.length s

/-- A docx text run: text plus bold/italic flags. -/
structure TextRun where
  text : Chars
  bold : Bool
  italics : Bool
deriving DecidableEq, Repr

/-- Embedding of the run classification of `markdownToDocxParagraphs`: a
part wrapped in `**` or `__` becomes a bold run of its inner text
(`slice(2, -2)`), else a part wrapped in `*` or `_` becomes an italic run
(`slice(1, -1)`), else a plain run. -/
def mkRun (part : Chars) : TextRun :=
  if ((str "**").isPrefixOf part && (str "**").isSuffixOf part) ||
     ((str "__").isPrefixOf part && (str "__").isSuffixOf part) then
    { text := (part.drop 2).take (part.length - 4), bold := true, italics := false }
  else if ((str "*").isPrefixOf part && (str "*").isSuffixOf part) ||
          ((str "_").isPrefixOf part && (str "_").isSuffixOf part) then
    { text := (part.drop 1).take (part.length - 2), bold := false, italics := true }
  else
    { text := part, bold := false, italics := false }

/-- The structured blocks `markdownToDocxParagraphs` produces. -/
inductive DocxBlock
  | emptyLine
  | heading1 (text : Chars)
  | heading2 (text : Chars)
  | heading3 (text : Chars)
  | bulletItem (text : Chars)
  | textPara (runs : List TextRun)
deriving DecidableEq, Repr

/-- Embedding of the per-line classification of `markdownToDocxParagraphs`
(exportUtils lines 28-79): empty line, `# `/`## `/`### ` headings,
`- `/`* ` list items, otherwise a paragraph of emphasis-classified runs. -/
def lineToBlock (line : Chars) : DocxBlock :=
  let trimmed := trim line
  if trimmed = [] then DocxBlock.emptyLine
  else if (str "# ").isPrefixOf trimmed then
    DocxBlock.heading1 (replaceFirst (str "# ") [] trimmed)
  else if (str "## ").isPrefixOf trimmed then
    DocxBlock.heading2 (replaceFirst (str "## ") [] trimmed)
  else if (str "### ").isPrefixOf trimmed then
    DocxBlock.heading3 (replaceFirst (str "### ") [] trimmed)
  else if (str "- ").isPrefixOf trimmed || (str "* ").isPrefixOf trimmed then
    DocxBlock.bulletItem (trimmed.drop 2)
  else
    DocxBlock.textPara ((splitEmph trimmed).map mkRun)

/-- Embedding of `markdownToDocxParagraphs` (exportUtils lines 24-82). -/
def markdownToDocxParagraphs (markdown : Chars) : List DocxBlock :=
  (splitLines markdown).map lineToBlock

/-! ## EPUB packaging (exportUtils, exportToEpub)

The manifest and spine are built from the `chapterFiles` list; ids come
from the JS template `item${i}`, whose number-to-decimal conversion is
embedded as `natRepr`. -/

/-- The decimal digit character for `d < 10`. -/
def digitChar (d : Nat) : Char := Char.ofNat (48 + d)

/-- Fuel-driven decimal conversion: least-significant digit last. -/
def natReprGo : Nat → Nat → Chars
  | 0, _ => []
  | fuel + 1, n =>
    if n < 10 then [digitChar n]
    else natReprGo fuel (n / 10) ++ [digitChar (n % 10)]

/-- Embedding of the JS number-to-string conversion used by the
`item${i}` / `chapter${i+1}` template literals. -/
def natRepr (n : Nat) : Chars := natReprGo (n + 1) n

/-- Decimal decoding, used to show `natRepr` is injective. -/
def decodeDec (s : Chars) : Nat :=
  s.foldl (fun acc c => acc * 10 + (c.toNat - 48)) 0

/-- The media types appearing in the EPUB manifest. -/
inductive MediaType
  | xhtml
  | ncx
  | css
deriving DecidableEq, Repr

/-- One `<item>` of the EPUB package manifest. -/
structure ManifestItem where
  id : Chars
  href : Chars
  mediaType : MediaType
deriving DecidableEq, Repr

/-- Embedding of the `chapterFiles` list built by `exportToEpub`
(exportUtils lines 227-277): the title page, the table-of-contents page,
then one `Text/chapter${i+1}.xhtml` per generated chapter. -/
def chapterFiles (fullChapters : List ChapterContent) : List Chars :=
  [str "Text/title.xhtml", str "Text/toc.xhtml"] ++
  (List.range fullChapters.length).map
    (fun i => str "Text/chapter" ++ natRepr (i + 1) ++ str ".xhtml")

/-- The `chapterFiles.map((f, i) => <item id="item${i}" .../>)` loop,
with the running index made explicit. -/
def manifestFor : Nat → List Chars → List ManifestItem
  | _, [] => []
  | i, f :: fs =>
    { id := str "item" ++ natRepr i,
      href := replaceFirst (str "OEBPS/") [] f,
      mediaType := MediaType.xhtml } :: manifestFor (i + 1) fs

/-- The content-page entries of the manifest (exportUtils line 280). -/
def contentManifestItems (fullChapters : List ChapterContent) :
    List ManifestItem :=
  manifestFor 0 (chapterFiles fullChapters)

/-- The full manifest of `content.opf` (exportUtils lines 291-295): the
ncx item, the stylesheet item, then the content-page items. -/
def fullManifest (fullChapters : List ChapterContent) : List ManifestItem :=
  { id := str "ncx", href := str "toc.ncx", mediaType := MediaType.ncx } ::
  { id := str "style", href := str "Styles/style.css",
    mediaType := MediaType.css } ::
  contentManifestItems fullChapters

/-- The `chapterFiles.map((f, i) => <itemref idref="item${i}"/>)` loop
(exportUtils line 281), listed by the `idref` values. -/
def spineFor : Nat → List Chars → List Chars
  | _, [] => []
  | i, _ :: fs => (str "item" ++ natRepr i) :: spineFor (i + 1) fs

/-- The spine reading order of `content.opf` (exportUtils lines 296-298). -/
def spineIdrefs (fullChapters : List ChapterContent) : List Chars :=
  spineFor 0 (chapterFiles fullChapters)

/-- A provider call that settles immediately with an error, used to
instantiate the orchestrators on concrete inputs. -/
def failCall (msg : String) : Call String :=
  { dur := 0, result := Except.error msg }

/-! ## Helper lemmas: fallback orchestration -/

/-- When every provider before the first successful one fails, the fallback
loop returns that provider's value and invokes exactly the failing heads
followed by the succeeding provider. -/
theorem runFallbackGo_first_ok {α : Type} (v : α) (name : String)
    (post : List (String × Except String α)) :
    ∀ (pre : List (String × Except String α)) (errs : List String),
      (∀ p ∈ pre, ∃ e, p.2 = Except.error e) →
      runFallbackGo (pre ++ (name, Except.ok v) :: post) errs =
        (Except.ok v, pre.map Prod.fst ++ [name]) := by
  intro pre
  induction pre with
  | nil =>
    intro errs _
    simp [runFallbackGo]
  | cons hd tl ih =>
    intro errs hfail
    obtain ⟨e, he⟩ := hfail hd (List.mem_cons_self hd tl)
    obtain ⟨n₁, r₁⟩ := hd
    simp only at he
    subst he
    simp only [List.cons_append, runFallbackGo, List.append_eq]
    rw [ih _ (fun p hp => hfail p (List.mem_cons_of_mem _ hp))]
    simp

/-! ## Helper lemmas: the generation loop -/

/-- One-step unfolding of `generationLoop`. -/
theorem generationLoop_unfold (outline : List ChapterOutline)
    (gen : Nat → Except String String) (i : Nat)
    (acc : List ChapterContent) :
    generationLoop outline gen i acc =
      if h : i < outline.length then
        match gen i with
        | Except.ok c =>
          let t := generationLoop outline gen (i + 1)
            (acc ++ [{ title := (outline.get ⟨i, h⟩).title, content := c }])
          { step := t.step, requested := i :: t.requested,
            chapters := t.chapters, states := acc :: t.states }
        | Except.error _ =>
          { step := AppStep.ERROR, requested := [i],
            chapters := acc, states := [acc] }
      else
        { step := AppStep.COMPLETED, requested := [],
          chapters := acc, states := [acc] } := by
  rw [generationLoop]

/-- With a generator that always succeeds, the loop starting at index `i`
completes, requests exactly the indices `i..length-1`, and appends one
chapter per remaining outline entry, titled after it, in order. -/
theorem generationLoop_all_ok (outline : List ChapterOutline)
    (f : Nat → String) :
    ∀ (k i : Nat) (acc : List ChapterContent),
      outline.length - i ≤ k →
      (generationLoop outline (fun j => Except.ok (f j)) i acc).step =
          AppStep.COMPLETED ∧
      (generationLoop outline (fun j => Except.ok (f j)) i acc).requested =
          List.range' i (outline.length - i) ∧
      (generationLoop outline (fun j => Except.ok (f j)) i acc).chapters =
          acc ++ (List.range' i (outline.length - i)).map
            (chapterAt outline f) := by
  intro k
  induction k with
  | zero =>
    intro i acc hk
    have hz : outline.length - i = 0 := by omega
    rw [generationLoop_unfold, dif_neg (by omega)]
    simp [hz, List.range']
  | succ k ih =>
    intro i acc hk
    rw [generationLoop_unfold]
    by_cases h : i < outline.length
    · rw [dif_pos h]
      simp only
      obtain ⟨h1, h2, h3⟩ := ih (i + 1)
        (acc ++ [{ title := (outline.get ⟨i, h⟩).title, content := f i }])
        (by omega)
      have hgd : chapterAt outline f i =
          { title := (outline.get ⟨i, h⟩).title, content := f i } := by
        simp [chapterAt, List.getD_eq_getElem?_getD, List.getElem?_eq_getElem h,
          List.get_eq_getElem]
      have hrange : outline.length - i = (outline.length - (i + 1)) + 1 := by
        omega
      refine ⟨h1, ?_, ?_⟩
      · rw [h2, hrange, List.range'_succ]
      · rw [h3, hrange, List.range'_succ]
        simp [hgd]
    · rw [dif_neg h]
      have hz : outline.length - i = 0 := by omega
      simp [hz, List.range']

/-- For an arbitrary generator, every intermediate chapter list recorded by
the loop keeps its titles a take-prefix of the outline's titles, and the
recorded lengths count up one by one from the starting index. -/
theorem generationLoop_states_inv (outline : List ChapterOutline)
    (gen : Nat → Except String String) :
    ∀ (k i : Nat) (acc : List ChapterContent),
      outline.length - i ≤ k →
      acc.length = i →
      acc.map (fun c => c.title) =
        (outline.map (fun c => c.title)).take i →
      ((generationLoop outline gen i acc).states.map List.length =
        List.range' i ((generationLoop outline gen i acc).states.length)) ∧
      ∀ s ∈ (generationLoop outline gen i acc).states,
        s.map (fun c => c.title) =
          (outline.map (fun c => c.title)).take s.length := by
  intro k
  induction k with
  | zero =>
    intro i acc hk hlen hpre
    rw [generationLoop_unfold, dif_neg (by omega)]
    refine ⟨?_, ?_⟩
    · simp [List.range', hlen]
    · intro s hs
      simp only [List.mem_singleton] at hs
      subst hs
      rw [hlen]
      exact hpre
  | succ k ih =>
    intro i acc hk hlen hpre
    rw [generationLoop_unfold]
    by_cases h : i < outline.length
    · rw [dif_pos h]
      cases hg : gen i with
      | error e =>
        refine ⟨?_, ?_⟩
        · simp [List.range', hlen]
        · intro s hs
          simp only [List.mem_singleton] at hs
          subst hs
          rw [hlen]
          exact hpre
      | ok c =>
        simp only
        have hlen' :
            (acc ++ [ChapterContent.mk (outline.get ⟨i, h⟩).title c]).length
              = i + 1 := by
          simp [hlen]
        have hpre' :
            (acc ++ [ChapterContent.mk (outline.get ⟨i, h⟩).title c]).map
                (fun c => c.title) =
              (outline.map (fun c => c.title)).take (i + 1) := by
          have hidx : i < (outline.map (fun c => c.title)).length := by
            simpa using h
          rw [List.take_succ, List.getElem?_eq_getElem hidx]
          simp only [List.map_append, List.map_cons, List.map_nil]
          rw [hpre]
          simp [List.get_eq_getElem]
        obtain ⟨ih1, ih2⟩ := ih (i + 1)
          (acc ++ [ChapterContent.mk (outline.get ⟨i, h⟩).title c])
          (by omega) hlen' hpre'
        refine ⟨?_, ?_⟩
        · simp only [List.map_cons, List.length_cons]
          rw [List.range'_succ, hlen, ih1]
        · intro s hs
          simp only [List.mem_cons] at hs
          rcases hs with hs | hs
          · subst hs
            rw [hlen]
            exact hpre
          · exact ih2 s hs
    · rw [dif_neg h]
      refine ⟨?_, ?_⟩
      · simp [List.range', hlen]
      · intro s hs
        simp only [List.mem_singleton] at hs
        subst hs
        rw [hlen]
        exact hpre

/-! ## Claim C1: ordered fallback, first success returned, later providers
never invoked -/

/-- C1: for every ordered provider list in which every provider before a
successful one fails, the fallback orchestration returns that first
success and invokes exactly the failing predecessors followed by the
succeeding provider — no provider after the first success is invoked.  In
particular, in `generateBookOutline` and `generateChapterContent`, when
the first provider fails and the second succeeds, the result is the second
provider's output, whatever the later providers would have done. -/
theorem claim_C1_fallback_first_success :
    (∀ (α : Type) (pre post : List (String × Except String α))
       (name : String) (v : α),
       (∀ p ∈ pre, ∃ e, p.2 = Except.error e) →
       runFallback (pre ++ (name, Except.ok v) :: post) =
         (Except.ok v, pre.map Prod.fst ++ [name])) ∧
    (∀ (eg : String) (v : BookOutline) (d l : Call BookOutline),
       generateBookOutline ⟨0, Except.error eg⟩ ⟨0, Except.ok v⟩ d l =
         Except.ok v) ∧
    (∀ (eg t : String) (d l : Call String), t ≠ "" →
       generateChapterContent ⟨0, Except.error eg⟩ ⟨0, Except.ok t⟩ d l =
         t) := by
  refine ⟨?_, ?_, ?_⟩
  · intro α pre post name v hfail
    exact runFallbackGo_first_ok v name post pre [] hfail
  · intro eg v d l
    simp [generateBookOutline, runFallback, runFallbackGo, withTimeout]
  · intro eg t d l ht
    simp [generateChapterContent, withTimeout, ht]

/-- Concrete instance of C1: providers A (fails), B (succeeds), C — the
result is B's output and only A and B are invoked. -/
theorem claim_C1_witness :
    (∀ p ∈ [("A", (Except.error "A down" : Except String Nat))],
       ∃ e, p.2 = Except.error e) ∧
    runFallback [("A", (Except.error "A down" : Except String Nat)),
                 ("B", Except.ok 7), ("C", Except.error "unreached")] =
      (Except.ok 7, ["A", "B"]) := by
  refine ⟨by simp, ?_⟩
  exact claim_C1_fallback_first_success.1 Nat
    [("A", Except.error "A down")] [("C", Except.error "unreached")]
    "B" 7 (by simp)

/-- Resuming starts the loop at the persisted chapter count with the
persisted chapters. -/
theorem handleStartGeneration_resume (outline : List ChapterOutline)
    (prior : List ChapterContent) (gen : Nat → Except String String) :
    handleStartGeneration outline prior gen true =
      generationLoop outline gen prior.length prior := rfl

/-- A fresh run starts the loop at index 0 with no chapters. -/
theorem handleStartGeneration_fresh (outline : List ChapterOutline)
    (prior : List ChapterContent) (gen : Nat → Except String String) :
    handleStartGeneration outline prior gen false =
      generationLoop outline gen 0 [] := rfl

/-! ## Claim C2: all chapter providers failing -/

/-- When every wrapped provider attempt fails, `generateChapterContent`
returns the sentinel text as an ordinary value. -/
theorem generateChapterContent_exhausted (g o d l : Call String)
    (hg : ∃ e, withTimeout g 120000 = Except.error e)
    (ho : ∃ e, withTimeout o 60000 = Except.error e)
    (hd : ∃ e, withTimeout d 60000 = Except.error e)
    (hl : ∃ e, withTimeout l 180000 = Except.error e) :
    generateChapterContent g o d l = chapterFailSentinel := by
  obtain ⟨eg, hg⟩ := hg
  obtain ⟨eo, ho⟩ := ho
  obtain ⟨ed, hd⟩ := hd
  obtain ⟨el, hl⟩ := hl
  simp [generateChapterContent, hg, ho, hd, hl]

/-- C2 counterexample: with every provider failing for every chapter, the
chapter operation does not error — it produces the sentinel text as a
success value, the loop records it as the chapter content, and the run
finishes COMPLETED rather than pausing in the ERROR step. -/
theorem claim_C2_counterexample :
    generateChapterContent (failCall "Gemini down") (failCall "OpenAI down")
        (failCall "DeepSeek down") (failCall "Ollama down") =
      chapterFailSentinel ∧
    (handleStartGeneration [⟨"Ch1", "d1"⟩, ⟨"Ch2", "d2"⟩] []
        (fun _ => Except.ok (generateChapterContent (failCall "Gemini down")
          (failCall "OpenAI down") (failCall "DeepSeek down")
          (failCall "Ollama down"))) false).step = AppStep.COMPLETED ∧
    (handleStartGeneration [⟨"Ch1", "d1"⟩, ⟨"Ch2", "d2"⟩] []
        (fun _ => Except.ok (generateChapterContent (failCall "Gemini down")
          (failCall "OpenAI down") (failCall "DeepSeek down")
          (failCall "Ollama down"))) false).chapters =
      [⟨"Ch1", chapterFailSentinel⟩, ⟨"Ch2", chapterFailSentinel⟩] := by
  have hsent : generateChapterContent (failCall "Gemini down")
      (failCall "OpenAI down") (failCall "DeepSeek down")
      (failCall "Ollama down") = chapterFailSentinel := rfl
  obtain ⟨h1, _, h3⟩ := generationLoop_all_ok
    [⟨"Ch1", "d1"⟩, ⟨"Ch2", "d2"⟩]
    (fun _ => generateChapterContent (failCall "Gemini down")
      (failCall "OpenAI down") (failCall "DeepSeek down")
      (failCall "Ollama down")) 2 0 [] (by simp)
  rw [handleStartGeneration_fresh]
  refine ⟨hsent, h1, ?_⟩
  rw [h3]
  simp [chapterAt, hsent, List.range']

/-- C2 amended: if every provider in the fallback chain fails while
generating a chapter, `generateChapterContent` does not raise an error —
it returns the sentinel text as that chapter's content, the generation
loop records it like any other chapter and proceeds, all previously
generated chapter content is retained, and the run ends COMPLETED rather
than pausing in the Errored state. -/
theorem claim_C2_amended (outline : List ChapterOutline)
    (prior : List ChapterContent) (g o d l : Call String)
    (hg : ∃ e, withTimeout g 120000 = Except.error e)
    (ho : ∃ e, withTimeout o 60000 = Except.error e)
    (hd : ∃ e, withTimeout d 60000 = Except.error e)
    (hl : ∃ e, withTimeout l 180000 = Except.error e)
    (hp : prior.length ≤ outline.length) :
    generateChapterContent g o d l = chapterFailSentinel ∧
    (handleStartGeneration outline prior
        (fun _ => Except.ok (generateChapterContent g o d l)) true).step =
      AppStep.COMPLETED ∧
    (handleStartGeneration outline prior
        (fun _ => Except.ok (generateChapterContent g o d l)) true).chapters =
      prior ++
        (List.range' prior.length (outline.length - prior.length)).map
          (fun j => ChapterContent.mk (outline.getD j ⟨"", ""⟩).title
            chapterFailSentinel) := by
  have hsent := generateChapterContent_exhausted g o d l hg ho hd hl
  obtain ⟨h1, _, h3⟩ := generationLoop_all_ok outline
    (fun _ => generateChapterContent g o d l) outline.length prior.length
    prior (by omega)
  rw [handleStartGeneration_resume]
  refine ⟨hsent, h1, ?_⟩
  rw [h3]
  simp [chapterAt, hsent]

/-- Concrete instance of the amended C2: one prior chapter, a two-chapter
outline, every provider failing — the run completes with the prior chapter
kept and the sentinel recorded for the remaining chapter. -/
theorem claim_C2_amended_witness :
    generateChapterContent (failCall "g") (failCall "o") (failCall "dk")
      (failCall "l") = chapterFailSentinel ∧
    (handleStartGeneration [⟨"Ch1", "d1"⟩, ⟨"Ch2", "d2"⟩] [⟨"Ch1", "body"⟩]
        (fun _ => Except.ok (generateChapterContent (failCall "g")
          (failCall "o") (failCall "dk") (failCall "l"))) true).step =
      AppStep.COMPLETED ∧
    (handleStartGeneration [⟨"Ch1", "d1"⟩, ⟨"Ch2", "d2"⟩] [⟨"Ch1", "body"⟩]
        (fun _ => Except.ok (generateChapterContent (failCall "g")
          (failCall "o") (failCall "dk") (failCall "l"))) true).chapters =
      [⟨"Ch1", "body"⟩] ++
        (List.range' 1 (2 - 1)).map
          (fun j => ChapterContent.mk
            (([⟨"Ch1", "d1"⟩, ⟨"Ch2", "d2"⟩] : List ChapterOutline).getD j
              ⟨"", ""⟩).title chapterFailSentinel) :=
  claim_C2_amended [⟨"Ch1", "d1"⟩, ⟨"Ch2", "d2"⟩] [⟨"Ch1", "body"⟩]
    (failCall "g") (failCall "o") (failCall "dk") (failCall "l")
    ⟨"g", rfl⟩ ⟨"o", rfl⟩ ⟨"dk", rfl⟩ ⟨"l", rfl⟩ (by decide)

/-! ## Claim C3: resuming requests only the remaining chapters -/

/-- C3: resuming after `N` of `M` chapters requests content exactly for the
indices `N..M-1` — never any index below `N` — and the final chapter
sequence is the original `N` chapters followed by the `M - N` newly
generated ones, in outline order. -/
theorem claim_C3_resume_only_remaining (outline : List ChapterOutline)
    (prior : List ChapterContent) (f : Nat → String)
    (hp : prior.length ≤ outline.length) :
    (handleStartGeneration outline prior (fun j => Except.ok (f j))
        true).requested =
      List.range' prior.length (outline.length - prior.length) ∧
    (∀ j ∈ (handleStartGeneration outline prior (fun j => Except.ok (f j))
        true).requested, prior.length ≤ j ∧ j < outline.length) ∧
    (handleStartGeneration outline prior (fun j => Except.ok (f j))
        true).chapters =
      prior ++
        (List.range' prior.length (outline.length - prior.length)).map
          (chapterAt outline f) := by
  obtain ⟨_, h2, h3⟩ := generationLoop_all_ok outline f outline.length
    prior.length prior (by omega)
  rw [handleStartGeneration_resume]
  refine ⟨h2, ?_, h3⟩
  intro j hj
  rw [h2] at hj
  rw [List.mem_range'_1] at hj
  omega

/-- Concrete instance of C3: two of three chapters already generated —
only index 2 is requested and the final sequence keeps the two prior
chapters followed by the new one. -/
theorem claim_C3_witness :
    (handleStartGeneration [⟨"A", "da"⟩, ⟨"B", "db"⟩, ⟨"C", "dc"⟩]
        [⟨"A", "bodyA"⟩, ⟨"B", "bodyB"⟩]
        (fun j => Except.ok (toString j)) true).requested =
      List.range' 2 (3 - 2) ∧
    (∀ j ∈ (handleStartGeneration [⟨"A", "da"⟩, ⟨"B", "db"⟩, ⟨"C", "dc"⟩]
        [⟨"A", "bodyA"⟩, ⟨"B", "bodyB"⟩]
        (fun j => Except.ok (toString j)) true).requested,
      2 ≤ j ∧ j < 3) ∧
    (handleStartGeneration [⟨"A", "da"⟩, ⟨"B", "db"⟩, ⟨"C", "dc"⟩]
        [⟨"A", "bodyA"⟩, ⟨"B", "bodyB"⟩]
        (fun j => Except.ok (toString j)) true).chapters =
      [⟨"A", "bodyA"⟩, ⟨"B", "bodyB"⟩] ++
        (List.range' 2 (3 - 2)).map
          (chapterAt [⟨"A", "da"⟩, ⟨"B", "db"⟩, ⟨"C", "dc"⟩] toString) :=
  claim_C3_resume_only_remaining
    [⟨"A", "da"⟩, ⟨"B", "db"⟩, ⟨"C", "dc"⟩]
    [⟨"A", "bodyA"⟩, ⟨"B", "bodyB"⟩] toString (by decide)

/-! ## Claim C4: the chapter sequence is always a prefix of the outline -/

/-- C4: starting from a chapter list whose titles are the outline's titles
up to its length, every intermediate chapter list recorded by the
generation loop (one entry per loop step, plus the final state) again has
its titles equal to the outline's titles up to its length — chapters are
never skipped or reordered — and the recorded lengths count up one by one
from the resume point, one per successfully generated chapter. -/
theorem claim_C4_prefix_invariant (outline : List ChapterOutline)
    (gen : Nat → Except String String) (prior : List ChapterContent)
    (hpre : prior.map (fun c => c.title) =
      (outline.map (fun c => c.title)).take prior.length) :
    ((handleStartGeneration outline prior gen true).states.map List.length =
      List.range' prior.length
        ((handleStartGeneration outline prior gen true).states.length)) ∧
    ∀ s ∈ (handleStartGeneration outline prior gen true).states,
      s.map (fun c => c.title) =
        (outline.map (fun c => c.title)).take s.length := by
  rw [handleStartGeneration_resume]
  exact generationLoop_states_inv outline gen outline.length prior.length
    prior (by omega) rfl hpre

/-- Concrete instance of C4: resuming a three-chapter outline after one
chapter, with the second generation failing — each recorded state stays a
prefix of the outline and the lengths count 1, 2. -/
theorem claim_C4_witness :
    ([⟨"A", "bodyA"⟩] : List ChapterContent).map (fun c => c.title) =
      (([⟨"A", "da"⟩, ⟨"B", "db"⟩, ⟨"C", "dc"⟩] :
        List ChapterOutline).map (fun c => c.title)).take 1 ∧
    ((handleStartGeneration [⟨"A", "da"⟩, ⟨"B", "db"⟩, ⟨"C", "dc"⟩]
        [⟨"A", "bodyA"⟩]
        (fun j => if j = 2 then Except.error "boom"
          else Except.ok "body") true).states.map List.length =
      List.range' 1
        ((handleStartGeneration [⟨"A", "da"⟩, ⟨"B", "db"⟩, ⟨"C", "dc"⟩]
          [⟨"A", "bodyA"⟩]
          (fun j => if j = 2 then Except.error "boom"
            else Except.ok "body") true).states.length)) ∧
    ∀ s ∈ (handleStartGeneration [⟨"A", "da"⟩, ⟨"B", "db"⟩, ⟨"C", "dc"⟩]
        [⟨"A", "bodyA"⟩]
        (fun j => if j = 2 then Except.error "boom"
          else Except.ok "body") true).states,
      s.map (fun c => c.title) =
        (([⟨"A", "da"⟩, ⟨"B", "db"⟩, ⟨"C", "dc"⟩] :
          List ChapterOutline).map (fun c => c.title)).take s.length := by
  obtain ⟨w1, w2⟩ := claim_C4_prefix_invariant
    [⟨"A", "da"⟩, ⟨"B", "db"⟩, ⟨"C", "dc"⟩]
    (fun j => if j = 2 then Except.error "boom" else Except.ok "body")
    [⟨"A", "bodyA"⟩] (by decide)
  exact ⟨by decide, w1, w2⟩

/-! ## Claim C5: retry classification and backoff -/

/-- C5: the retrying fetch wrapper classifies status 500+ and 429 as
retryable; a backend answering 503, 503, 200 succeeds after exactly the
two retries with backoff delays 1000 ms and 2000 ms; a non-retryable
response is returned from the first attempt with no injected delay; and
no run of the wrapper ever injects more than the two delays 1000, 2000. -/
theorem claim_C5_retry_policy :
    (∀ s, retryable s = true ↔ 500 ≤ s ∨ s = 429) ∧
    (∀ f : Nat → FetchOutcome,
       f 0 = FetchOutcome.response 503 →
       f 1 = FetchOutcome.response 503 →
       f 2 = FetchOutcome.response 200 →
       fetchWithRetry f 2 = (Except.ok 200, [1000, 2000])) ∧
    (∀ (f : Nat → FetchOutcome) (s : Nat),
       f 0 = FetchOutcome.response s → retryable s = false →
       fetchWithRetry f 2 = (Except.ok s, [])) ∧
    (∀ f : Nat → FetchOutcome,
       (fetchWithRetry f 2).2 = [] ∨ (fetchWithRetry f 2).2 = [1000] ∨
       (fetchWithRetry f 2).2 = [1000, 2000]) := by
  refine ⟨?_, ?_, ?_, ?_⟩
  · intro s
    simp [retryable]
  · intro f h0 h1 h2
    simp [fetchWithRetry, fetchGo, h0, h1, h2, retryable]
  · intro f s h0 hnr
    simp [fetchWithRetry, fetchGo, h0, hnr]
  · intro f
    have hstepE : ∀ (fuel i : Nat) (acc : List Nat) (last m : String),
        f i = FetchOutcome.netError m →
        fetchGo f 2 (fuel + 1) i acc last =
          if i < 2 then fetchGo f 2 fuel (i + 1) (acc ++ [1000 * 2 ^ i]) m
          else (Except.error m, acc) := by
      intro fuel i acc last m h
      rw [fetchGo, h]
    have hstepR : ∀ (fuel i : Nat) (acc : List Nat) (last : String)
        (s : Nat), f i = FetchOutcome.response s →
        fetchGo f 2 (fuel + 1) i acc last =
          if retryable s then
            (if i < 2 then
              fetchGo f 2 fuel (i + 1) (acc ++ [1000 * 2 ^ i])
                ("Server status: " ++ toString s)
            else (Except.error ("Server status: " ++ toString s), acc))
          else (Except.ok s, acc) := by
      intro fuel i acc last s h
      rw [fetchGo, h]
    have h23 : ∀ (last : String) (acc : List Nat),
        (fetchGo f 2 1 2 acc last).2 = acc := by
      intro last acc
      rcases h2 : f 2 with m2 | s2
      · rw [hstepE 0 2 acc last m2 h2, if_neg (by omega)]
      · rw [hstepR 0 2 acc last s2 h2]
        by_cases hr : retryable s2
        · rw [if_pos hr, if_neg (by omega)]
        · rw [if_neg hr]
    have h12 : ∀ (last : String) (acc : List Nat),
        (fetchGo f 2 2 1 acc last).2 = acc ∨
        (fetchGo f 2 2 1 acc last).2 = acc ++ [1000 * 2 ^ 1] := by
      intro last acc
      rcases h1 : f 1 with m1 | s1
      · rw [hstepE 1 1 acc last m1 h1, if_pos (by omega)]
        exact Or.inr (h23 m1 _)
      · rw [hstepR 1 1 acc last s1 h1]
        by_cases hr : retryable s1
        · rw [if_pos hr, if_pos (by omega)]
          exact Or.inr (h23 _ _)
        · rw [if_neg hr]
          exact Or.inl rfl
    rcases h0 : f 0 with m0 | s0
    · rw [show fetchWithRetry f 2 = fetchGo f 2 3 0 [] "" from rfl,
        hstepE 2 0 [] "" m0 h0, if_pos (by omega)]
      rcases h12 m0 ([] ++ [1000 * 2 ^ 0]) with h | h <;> rw [h] <;> simp
    · rw [show fetchWithRetry f 2 = fetchGo f 2 3 0 [] "" from rfl,
        hstepR 2 0 [] "" s0 h0]
      by_cases hr : retryable s0
      · rw [if_pos hr, if_pos (by omega)]
        rcases h12 _ ([] ++ [1000 * 2 ^ 0]) with h | h <;> rw [h] <;> simp
      · rw [if_neg hr]
        simp

/-- Concrete instance of C5: 503 twice then 200 succeeds after delays
1000 and 2000 ms; a 404 is returned at once with no delay. -/
theorem claim_C5_witness :
    fetchWithRetry (fun i => if i ≤ 1 then FetchOutcome.response 503
      else FetchOutcome.response 200) 2 = (Except.ok 200, [1000, 2000]) ∧
    fetchWithRetry (fun _ => FetchOutcome.response 404) 2 =
      (Except.ok 404, []) :=
  ⟨claim_C5_retry_policy.2.1 _ rfl rfl rfl,
   claim_C5_retry_policy.2.2.1 _ 404 rfl rfl⟩

/-! ## Claim C6: deadlines on provider calls -/

/-- C6 counterexample: a cover-image provider call lasting 1,000,000
seconds — far beyond the claimed 120 s budget — still returns its image
instead of failing with a Timeout error, because `generateCoverImage`
wraps no provider call in a deadline. -/
theorem claim_C6_counterexample :
    generateCoverImage
      { geminiKey := true,
        gemini := fun _ => { dur := 1000000000, result := Except.ok "img" },
        openai := fun _ => failCall "unused" } "a cover" ImgSize.oneK =
      Except.ok "img" := rfl

/-- C6 amended: a call wrapped in `withTimeout` whose duration reaches the
budget fails with a Timeout error; the outline orchestrator wraps every
provider call in a deadline of at most 120 s (so outline generation fails
when every provider would take 120 s or more) and the chapter orchestrator
in a deadline of at most 180 s; but the cover-image provider calls are not
wrapped in any deadline — an image call of any duration has its settled
result used directly. -/
theorem claim_C6_amended :
    (∀ (α : Type) (c : Call α) (ms : Nat), ms ≤ c.dur →
       withTimeout c ms =
         Except.error ("Timeout after " ++ toString ms ++ "ms")) ∧
    (∀ g o d l : Call BookOutline,
       120000 ≤ g.dur → 120000 ≤ o.dur → 120000 ≤ d.dur → 120000 ≤ l.dur →
       ∃ msg, generateBookOutline g o d l = Except.error msg) ∧
    (∀ g o d l : Call String,
       180000 ≤ g.dur → 180000 ≤ o.dur → 180000 ≤ d.dur → 180000 ≤ l.dur →
       generateChapterContent g o d l = chapterFailSentinel) ∧
    (∀ (env : ImageEnv) (prompt : String) (size : ImgSize)
       (dur : Nat) (v : String),
       env.geminiKey = true → env.gemini prompt = ⟨dur, Except.ok v⟩ →
       generateCoverImage env prompt size = Except.ok v) := by
  have hto : ∀ (α : Type) (c : Call α) (ms : Nat), ms ≤ c.dur →
      withTimeout c ms =
        Except.error ("Timeout after " ++ toString ms ++ "ms") := by
    intro α c ms h
    rw [withTimeout, if_neg (by omega)]
  refine ⟨hto, ?_, ?_, ?_⟩
  · intro g o d l hg ho hd hl
    have e1 := hto _ g 120000 (by omega)
    have e2 := hto _ o 45000 (by omega)
    have e3 := hto _ d 45000 (by omega)
    have e4 := hto _ l 120000 (by omega)
    simp only [generateBookOutline, runFallback, runFallbackGo, e1, e2, e3, e4]
    exact ⟨_, rfl⟩
  · intro g o d l hg ho hd hl
    exact generateChapterContent_exhausted g o d l
      ⟨_, hto _ g 120000 (by omega)⟩ ⟨_, hto _ o 60000 (by omega)⟩
      ⟨_, hto _ d 60000 (by omega)⟩ ⟨_, hto _ l 180000 (by omega)⟩
  · intro env prompt size dur v hkey hcall
    simp [generateCoverImage, hkey, hcall]

/-- Concrete instance of the amended C6: a 120 s call times out under a
120 s budget; four slow outline providers make the outline fail; four slow
chapter providers yield the sentinel; and a slow Gemini image call
nevertheless returns its image. -/
theorem claim_C6_amended_witness :
    withTimeout (Call.mk 120000 (Except.ok (42 : Nat))) 120000 =
      Except.error ("Timeout after " ++ toString 120000 ++ "ms") ∧
    (∃ msg, generateBookOutline
      ⟨130000, Except.ok ⟨"T", "S", "D", "B", []⟩⟩
      ⟨130000, Except.ok ⟨"T", "S", "D", "B", []⟩⟩
      ⟨130000, Except.ok ⟨"T", "S", "D", "B", []⟩⟩
      ⟨130000, Except.ok ⟨"T", "S", "D", "B", []⟩⟩ = Except.error msg) ∧
    generateChapterContent ⟨200000, Except.ok "late"⟩
      ⟨200000, Except.ok "late"⟩ ⟨200000, Except.ok "late"⟩
      ⟨200000, Except.ok "late"⟩ = chapterFailSentinel ∧
    generateCoverImage
      { geminiKey := true,
        gemini := fun _ => { dur := 999999999, result := Except.ok "img" },
        openai := fun _ => failCall "unused" } "a cover" ImgSize.twoK =
      Except.ok "img" :=
  ⟨claim_C6_amended.1 Nat ⟨120000, Except.ok 42⟩ 120000 (by decide),
   claim_C6_amended.2.1 _ _ _ _ (by decide) (by decide) (by decide)
     (by decide),
   claim_C6_amended.2.2.1 _ _ _ _ (by decide) (by decide) (by decide)
     (by decide),
   claim_C6_amended.2.2.2 _ "a cover" ImgSize.twoK 999999999 "img" rfl rfl⟩

/-! ## Claim C9: outline accepted only with a non-empty chapter list -/

/-- C9: `handleWizardSubmit` accepts an outline result as a success (moving
to the review step with the outline set) exactly when the result is
present, its chapter list is present, and that list is non-empty; in every
other case the run returns to the input step — aborting before any chapter
generation — with no outline set. -/
theorem claim_C9_outline_validation (r : Option RawOutline) :
    ((handleWizardSubmit r).1 = AppStep.OUTLINE_REVIEW ↔
      ∃ o cs, r = some o ∧ o.chapters = some cs ∧ 0 < cs.length) ∧
    ((handleWizardSubmit r).2.isSome ↔
      (handleWizardSubmit r).1 = AppStep.OUTLINE_REVIEW) ∧
    ((handleWizardSubmit r).1 = AppStep.OUTLINE_REVIEW ∨
      (handleWizardSubmit r).1 = AppStep.INPUT) := by
  rcases r with _ | r
  · have hred : handleWizardSubmit none = (AppStep.INPUT, none) := rfl
    rw [hred]
    refine ⟨iff_of_false (by simp) ?_, by simp, Or.inr rfl⟩
    rintro ⟨o, cs, ho, -, -⟩
    cases ho
  · rcases hc : r.chapters with _ | cs
    · have hred : handleWizardSubmit (some r) = (AppStep.INPUT, none) := by
        simp [handleWizardSubmit, hc]
      rw [hred]
      refine ⟨iff_of_false (by simp) ?_, by simp, Or.inr rfl⟩
      rintro ⟨o, cs, ho, hco, -⟩
      injection ho with ho
      subst ho
      rw [hc] at hco
      cases hco
    · by_cases hz : cs.length = 0
      · have hred : handleWizardSubmit (some r) = (AppStep.INPUT, none) := by
          simp [handleWizardSubmit, hc, hz]
        rw [hred]
        refine ⟨iff_of_false (by simp) ?_, by simp, Or.inr rfl⟩
        rintro ⟨o, cs', ho, hco, hpos⟩
        injection ho with ho
        subst ho
        rw [hc] at hco
        injection hco with hco
        subst hco
        omega
      · have hred : handleWizardSubmit (some r) =
            (AppStep.OUTLINE_REVIEW,
             some { title := r.title, subtitle := r.subtitle,
                    description := r.description,
                    backCoverCopy := r.backCoverCopy, chapters := cs }) := by
          simp [handleWizardSubmit, hc, hz]
        rw [hred]
        exact ⟨iff_of_true rfl ⟨r, cs, rfl, hc, by omega⟩, by simp,
          Or.inl rfl⟩

/-! ## Claim C10: editing a cover ignores the existing image -/

/-- C10: `editCoverImage` is completely independent of the base64 image it
is handed — for any two input images and the same prompt it performs the
identical computation, namely regenerating a fresh cover through
`generateCoverImage` at the 1K tier. -/
theorem claim_C10_edit_ignores_image (env : ImageEnv)
    (b1 b2 prompt : String) :
    editCoverImage env b1 prompt = editCoverImage env b2 prompt ∧
    editCoverImage env b1 prompt =
      generateCoverImage env prompt ImgSize.oneK :=
  ⟨rfl, rfl⟩

/-! ## Helper lemmas: the single-line Markdown parser -/

/-- A list is a Boolean prefix of itself followed by anything. -/
theorem isPrefixOf_append_self (l r : Chars) : l.isPrefixOf (l ++ r) = true := by
  induction l with
  | nil => simp [List.isPrefixOf]
  | cons a as ih => simp [List.isPrefixOf, ih]

/-- A non-empty pattern is not a Boolean prefix of a string starting with a
different character. -/
theorem isPrefixOf_head_ne (c₀ c : Char) (l cs : Chars) (h : c₀ ≠ c) :
    (c₀ :: l).isPrefixOf (c :: cs) = false := by
  simp [List.isPrefixOf, h]

/-- `dropWhile` keeps a list whose first character fails the predicate. -/
theorem dropWhile_eq_self_of_head (p : Char → Bool) (s : Chars)
    (h : ∀ c ∈ s.head?.toList, p c = false) : s.dropWhile p = s := by
  cases s with
  | nil => rfl
  | cons a l =>
    have ha : p a = false := h a (by simp)
    rw [List.dropWhile_cons, if_neg (by simp [ha])]

/-- `trim` keeps a string whose first and last characters are not
whitespace. -/
theorem trim_eq_self (s : Chars)
    (h1 : ∀ c ∈ s.head?.toList, isWS c = false)
    (h2 : ∀ c ∈ s.getLast?.toList, isWS c = false) : trim s = s := by
  rw [trim, dropWhile_eq_self_of_head _ _ h1,
    dropWhile_eq_self_of_head _ _ (by rw [List.head?_reverse]; exact h2),
    List.reverse_reverse]

/-- The lazy search for a two-character closing delimiter lands exactly on
the first occurrence when the text before it avoids the delimiter's
character. -/
theorem findClose_cons2 (c₀ : Char) (t post : Chars)
    (ht : ∀ c ∈ t, c ≠ c₀) :
    findClose [c₀, c₀] (t ++ (c₀ :: c₀ :: post)) = some (t, post) := by
  induction t with
  | nil =>
    rw [List.nil_append, findClose, if_pos (by simp [List.isPrefixOf])]
    simp
  | cons x t' ih =>
    have hx : c₀ ≠ x := Ne.symm (ht x (by simp))
    rw [List.cons_append, findClose,
      if_neg (by simp [isPrefixOf_head_ne c₀ x _ _ hx]),
      ih (fun c hc => ht c (by simp [hc]))]

/-- A two-character delimiter matches at the start of
`delim ++ inner ++ delim ++ post` with the lazy inner text. -/
theorem matchDelim_cons2 (c₀ : Char) (t post : Chars)
    (ht : ∀ c ∈ t, c ≠ c₀) :
    matchDelim [c₀, c₀] (c₀ :: c₀ :: (t ++ (c₀ :: c₀ :: post))) =
      some (c₀ :: c₀ :: (t ++ [c₀, c₀]), post) := by
  rw [matchDelim, if_pos (by simp [List.isPrefixOf])]
  have hdrop : (c₀ :: c₀ :: (t ++ (c₀ :: c₀ :: post))).drop
      ([c₀, c₀] : Chars).length = t ++ (c₀ :: c₀ :: post) := rfl
  rw [hdrop, findClose_cons2 c₀ t post ht]
  rfl

/-- A delimiter starting with one character never matches at a position
holding a different character. -/
theorem matchDelim_head_ne (d₀ c : Char) (d' cs : Chars) (h : d₀ ≠ c) :
    matchDelim (d₀ :: d') (c :: cs) = none := by
  rw [matchDelim, if_neg (by simp [isPrefixOf_head_ne d₀ c d' cs h])]

/-- At a position holding neither `*` nor `_`, none of the four emphasis
alternatives matches. -/
theorem matchEmphAt_none (c : Char) (cs : Chars)
    (hc1 : c ≠ '*') (hc2 : c ≠ '_') : matchEmphAt (c :: cs) = none := by
  have e1 : matchDelim (str "**") (c :: cs) = none :=
    matchDelim_head_ne '*' c _ _ (Ne.symm hc1)
  have e2 : matchDelim (str "__") (c :: cs) = none :=
    matchDelim_head_ne '_' c _ _ (Ne.symm hc2)
  have e3 : matchDelim (str "*") (c :: cs) = none :=
    matchDelim_head_ne '*' c _ _ (Ne.symm hc1)
  have e4 : matchDelim (str "_") (c :: cs) = none :=
    matchDelim_head_ne '_' c _ _ (Ne.symm hc2)
  rw [matchEmphAt, e1, e2, e3, e4]
  rfl

/-- The emphasis regex matches a double-asterisk span at its start. -/
theorem matchEmphAt_star (t post : Chars) (ht : ∀ c ∈ t, c ≠ '*') :
    matchEmphAt ('*' :: '*' :: (t ++ ('*' :: '*' :: post))) =
      some ('*' :: '*' :: (t ++ ['*', '*']), post) := by
  have e1 : matchDelim (str "**")
      ('*' :: '*' :: (t ++ ('*' :: '*' :: post))) =
      some ('*' :: '*' :: (t ++ ['*', '*']), post) :=
    matchDelim_cons2 '*' t post ht
  rw [matchEmphAt, e1]
  rfl

/-- The emphasis regex matches a double-underscore span at its start: the
double-asterisk alternative fails on the first character and the
double-underscore alternative matches. -/
theorem matchEmphAt_under (t post : Chars) (ht : ∀ c ∈ t, c ≠ '_') :
    matchEmphAt ('_' :: '_' :: (t ++ ('_' :: '_' :: post))) =
      some ('_' :: '_' :: (t ++ ['_', '_']), post) := by
  have e1 : matchDelim (str "**")
      ('_' :: '_' :: (t ++ ('_' :: '_' :: post))) = none :=
    matchDelim_head_ne '*' '_' _ _ (by decide)
  have e2 : matchDelim (str "__")
      ('_' :: '_' :: (t ++ ('_' :: '_' :: post))) =
      some ('_' :: '_' :: (t ++ ['_', '_']), post) :=
    matchDelim_cons2 '_' t post ht
  rw [matchEmphAt, e1, e2]
  rfl

/-- Scanning emphasis-free text finds no match. -/
theorem findEmph_none (s : Chars) (hs : ∀ c ∈ s, c ≠ '*' ∧ c ≠ '_') :
    findEmph s = none := by
  induction s with
  | nil => rfl
  | cons c cs ih =>
    rw [findEmph, matchEmphAt_none c cs (hs c (by simp)).1 (hs c (by simp)).2,
      ih (fun c hc => hs c (by simp [hc]))]

/-- Scanning emphasis-free text followed by a matching position yields the
match with the scanned text as the unmatched head. -/
theorem findEmph_prepend (pre X m rest : Chars)
    (hpre : ∀ c ∈ pre, c ≠ '*' ∧ c ≠ '_')
    (hX : matchEmphAt X = some (m, rest)) :
    findEmph (pre ++ X) = some (pre, m, rest) := by
  induction pre with
  | nil =>
    rw [List.nil_append]
    cases X with
    | nil =>
      rw [show matchEmphAt ([] : Chars) = none from rfl] at hX
      cases hX
    | cons x xs => rw [findEmph, hX]
  | cons c pre' ih =>
    rw [List.cons_append, findEmph,
      matchEmphAt_none c _ (hpre c (by simp)).1 (hpre c (by simp)).2,
      ih (fun c hc => hpre c (by simp [hc]))]

/-- With no match anywhere, the split keeps the whole string, whatever the
fuel. -/
theorem splitEmphGo_none (s : Chars) (h : findEmph s = none) :
    ∀ fuel, splitEmphGo fuel s = [s] := by
  intro fuel
  cases fuel with
  | zero => rfl
  | succ n => rw [splitEmphGo, h]

/-- A string with exactly one emphasis match splits into the unmatched
head, the match, and the unmatched tail. -/
theorem splitEmph_single (s pre m rest : Chars)
    (hfind : findEmph s = some (pre, m, rest))
    (hrest : findEmph rest = none) (hs : s ≠ []) :
    splitEmph s = [pre, m, rest] := by
  rw [splitEmph]
  cases hl : s.length with
  | zero => exact absurd (List.length_eq_zero.mp hl) hs
  | succ n =>
    rw [splitEmphGo, hfind]
    show pre :: m :: splitEmphGo n rest = [pre, m, rest]
    rw [splitEmphGo_none rest hrest n]

/-- A list is a Boolean suffix of anything followed by itself. -/
theorem isSuffixOf_append_self (l r : Chars) : l.isSuffixOf (r ++ l) = true := by
  rw [List.isSuffixOf, List.reverse_append]
  exact isPrefixOf_append_self _ _

/-- A part without emphasis characters is classified as a plain run. -/
theorem mkRun_plain (part : Chars) (h : ∀ c ∈ part, c ≠ '*' ∧ c ≠ '_') :
    mkRun part = ⟨part, false, false⟩ := by
  cases part with
  | nil => rfl
  | cons c cs =>
    have hc1 : ('*' : Char) ≠ c := Ne.symm (h c (by simp)).1
    have hc2 : ('_' : Char) ≠ c := Ne.symm (h c (by simp)).2
    have e1 : (str "**").isPrefixOf (c :: cs) = false :=
      isPrefixOf_head_ne '*' c _ _ hc1
    have e2 : (str "__").isPrefixOf (c :: cs) = false :=
      isPrefixOf_head_ne '_' c _ _ hc2
    have e3 : (str "*").isPrefixOf (c :: cs) = false :=
      isPrefixOf_head_ne '*' c _ _ hc1
    have e4 : (str "_").isPrefixOf (c :: cs) = false :=
      isPrefixOf_head_ne '_' c _ _ hc2
    rw [mkRun, if_neg (by simp [e1, e2]), if_neg (by simp [e3, e4])]

/-- A part of the form `delim ++ t ++ delim` for a double delimiter is
classified as a bold run whose text is the inner text. -/
theorem mkRun_bold2 (c₀ : Char) (hc : c₀ = '*' ∨ c₀ = '_') (t : Chars) :
    mkRun (c₀ :: c₀ :: (t ++ [c₀, c₀])) = ⟨t, true, false⟩ := by
  have hdrop : ((c₀ :: c₀ :: (t ++ [c₀, c₀])).drop 2) = t ++ [c₀, c₀] := rfl
  have hlen : (c₀ :: c₀ :: (t ++ [c₀, c₀])).length - 4 = t.length := by
    simp
  rcases hc with rfl | rfl
  · have hA : (str "**").isPrefixOf ('*' :: '*' :: (t ++ ['*', '*'])) =
        true := by simp [List.isPrefixOf]
    have hB : (str "**").isSuffixOf ('*' :: '*' :: (t ++ ['*', '*'])) =
        true := isSuffixOf_append_self ['*', '*'] ('*' :: '*' :: t)
    rw [mkRun, if_pos (by simp [hA, hB]), hdrop, hlen, List.take_left]
  · have hA : (str "**").isPrefixOf ('_' :: '_' :: (t ++ ['_', '_'])) =
        false := by simp [List.isPrefixOf]
    have hA' : (str "__").isPrefixOf ('_' :: '_' :: (t ++ ['_', '_'])) =
        true := by simp [List.isPrefixOf]
    have hB : (str "__").isSuffixOf ('_' :: '_' :: (t ++ ['_', '_'])) =
        true := isSuffixOf_append_self ['_', '_'] ('_' :: '_' :: t)
    rw [mkRun, if_pos (by simp [hA, hA', hB]), hdrop, hlen, List.take_left]

/-- `replaceFirst` with an empty replacement removes a pattern sitting at
the start of the string. -/
theorem replaceFirst_cons (c₀ : Char) (ps rest : Chars) :
    replaceFirst (c₀ :: ps) [] ((c₀ :: ps) ++ rest) = rest := by
  rw [List.cons_append, replaceFirst,
    if_pos (by rw [← List.cons_append]; exact isPrefixOf_append_self _ _),
    List.nil_append,
    show ((c₀ :: ps : Chars)).length = ps.length + 1 from by simp,
    List.drop_succ_cons, List.drop_left]

/-- Splitting a line-break-free string on line breaks keeps it whole. -/
theorem splitLines_noNL (l : Chars) (h : noNL l) : splitLines l = [l] := by
  induction l with
  | nil => rfl
  | cons c cs ih =>
    rw [splitLines, if_neg (h c (by simp)),
      ih (fun c hc => h c (by simp [hc]))]

/-- Splitting peels one line-break-free line off the front. -/
theorem splitLines_cons_line (l rest : Chars) (h : noNL l) :
    splitLines (l ++ ('\n' :: rest)) = l :: splitLines rest := by
  induction l with
  | nil => rw [List.nil_append, splitLines, if_pos rfl]
  | cons c cs ih =>
    rw [List.cons_append, splitLines, if_neg (h c (by simp)),
      ih (fun c hc => h c (by simp [hc]))]

/-! ## Helper lemmas: line classification -/

/-- A `## `-prefixed line becomes a level-2 heading of the rest. -/
theorem lineToBlock_h2 (h : Chars) (hnil : h ≠ [])
    (hlast : ∀ c ∈ h.getLast?.toList, isWS c = false) :
    lineToBlock ((str "## ") ++ h) = DocxBlock.heading2 h := by
  obtain ⟨z, hz⟩ : ∃ z, h.getLast? = some z := by
    cases hl : h.getLast? with
    | none => exact absurd (List.getLast?_eq_none_iff.mp hl) hnil
    | some z => exact ⟨z, rfl⟩
  have hlastline : ((str "## ") ++ h).getLast? = some z := by
    rw [List.getLast?_append, hz]
    rfl
  have htrim : trim ((str "## ") ++ h) = (str "## ") ++ h := by
    apply trim_eq_self
    · intro c hc
      rw [show ((str "## ") ++ h).head? = some '#' from rfl] at hc
      simp at hc
      subst hc
      rfl
    · intro c hc
      rw [hlastline] at hc
      simp at hc
      subst hc
      exact hlast _ (by rw [hz]; simp)
  have hne : (str "## ") ++ h ≠ [] := by
    rw [show (str "## ") ++ h = '#' :: ('#' :: ' ' :: h) from rfl]
    simp
  have c1 : ((str "# ").isPrefixOf ((str "## ") ++ h)) = false := rfl
  have c2 : ((str "## ").isPrefixOf ((str "## ") ++ h)) = true :=
    isPrefixOf_append_self (str "## ") h
  have hrep : replaceFirst (str "## ") [] ((str "## ") ++ h) = h :=
    replaceFirst_cons '#' ['#', ' '] h
  simp only [lineToBlock]
  rw [htrim, if_neg hne, c1, if_neg Bool.false_ne_true, c2, if_pos rfl,
    hrep]

/-- A `- `-prefixed line becomes a list item of the rest. -/
theorem lineToBlock_bullet (a : Chars) (hnil : a ≠ [])
    (hlast : ∀ c ∈ a.getLast?.toList, isWS c = false) :
    lineToBlock ((str "- ") ++ a) = DocxBlock.bulletItem a := by
  obtain ⟨z, hz⟩ : ∃ z, a.getLast? = some z := by
    cases hl : a.getLast? with
    | none => exact absurd (List.getLast?_eq_none_iff.mp hl) hnil
    | some z => exact ⟨z, rfl⟩
  have hlastline : ((str "- ") ++ a).getLast? = some z := by
    rw [List.getLast?_append, hz]
    rfl
  have htrim : trim ((str "- ") ++ a) = (str "- ") ++ a := by
    apply trim_eq_self
    · intro c hc
      rw [show ((str "- ") ++ a).head? = some '-' from rfl] at hc
      simp at hc
      subst hc
      rfl
    · intro c hc
      rw [hlastline] at hc
      simp at hc
      subst hc
      exact hlast _ (by rw [hz]; simp)
  have hne : (str "- ") ++ a ≠ [] := by
    rw [show (str "- ") ++ a = '-' :: (' ' :: a) from rfl]
    simp
  have c1 : ((str "# ").isPrefixOf ((str "- ") ++ a)) = false := rfl
  have c2 : ((str "## ").isPrefixOf ((str "- ") ++ a)) = false := rfl
  have c3 : ((str "### ").isPrefixOf ((str "- ") ++ a)) = false := rfl
  have c4 : ((str "- ").isPrefixOf ((str "- ") ++ a)) = true :=
    isPrefixOf_append_self (str "- ") a
  simp only [lineToBlock]
  rw [htrim, if_neg hne, c1, if_neg Bool.false_ne_true, c2,
    if_neg Bool.false_ne_true, c3, if_neg Bool.false_ne_true, c4,
    if_pos (by simp)]
  rfl

/-- A line containing one double-delimited span between emphasis-free text
becomes a paragraph of a plain run, a bold run with the span's inner text,
and a plain run — never italic runs. -/
theorem lineToBlock_para (c₀ : Char) (hc₀ : c₀ = '*' ∨ c₀ = '_')
    (pre t post : Chars)
    (hpre : emphFree pre) (hpren : pre ≠ [])
    (hpreh : ∀ c ∈ pre.head?.toList, isWS c = false ∧ c ≠ '#' ∧ c ≠ '-')
    (ht : emphFree t)
    (hpost : emphFree post) (hpostn : post ≠ [])
    (hpostl : ∀ c ∈ post.getLast?.toList, isWS c = false) :
    lineToBlock (pre ++ (c₀ :: c₀ :: (t ++ (c₀ :: c₀ :: post)))) =
      DocxBlock.textPara
        [⟨pre, false, false⟩, ⟨t, true, false⟩, ⟨post, false, false⟩] := by
  rcases pre with _ | ⟨c, pre'⟩
  · exact absurd rfl hpren
  obtain ⟨hcW, hcH, hcD⟩ := hpreh c (by simp)
  obtain ⟨hcS, hcU, _⟩ := hpre c (by simp)
  obtain ⟨z, hz⟩ : ∃ z, post.getLast? = some z := by
    cases hl : post.getLast? with
    | none => exact absurd (List.getLast?_eq_none_iff.mp hl) hpostn
    | some z => exact ⟨z, rfl⟩
  have hzW : isWS z = false := hpostl z (by rw [hz]; simp)
  have hc₀ne : c₀ ≠ '\n' ∧ isWS c₀ = false := by
    rcases hc₀ with rfl | rfl <;> exact ⟨by decide, rfl⟩
  have hlastline :
      ((c :: pre') ++ (c₀ :: c₀ :: (t ++ (c₀ :: c₀ :: post)))).getLast? =
        some z := by
    rw [List.getLast?_append,
      show (c₀ :: c₀ :: (t ++ (c₀ :: c₀ :: post)) : Chars) =
        [c₀, c₀] ++ (t ++ ([c₀, c₀] ++ post)) from rfl,
      List.getLast?_append, List.getLast?_append, List.getLast?_append,
      hz]
    rfl
  have htrim :
      trim ((c :: pre') ++ (c₀ :: c₀ :: (t ++ (c₀ :: c₀ :: post)))) =
        (c :: pre') ++ (c₀ :: c₀ :: (t ++ (c₀ :: c₀ :: post))) := by
    apply trim_eq_self
    · intro x hx
      simp only [List.cons_append, List.head?_cons, Option.toList_some,
        List.mem_singleton] at hx
      subst hx
      exact hcW
    · intro x hx
      rw [hlastline] at hx
      simp at hx
      subst hx
      exact hzW
  have hne :
      (c :: pre') ++ (c₀ :: c₀ :: (t ++ (c₀ :: c₀ :: post))) ≠ [] := by
    rw [List.cons_append]
    simp
  have e1 : (str "# ").isPrefixOf
      ((c :: pre') ++ (c₀ :: c₀ :: (t ++ (c₀ :: c₀ :: post)))) = false :=
    isPrefixOf_head_ne '#' c _ _ (Ne.symm hcH)
  have e2 : (str "## ").isPrefixOf
      ((c :: pre') ++ (c₀ :: c₀ :: (t ++ (c₀ :: c₀ :: post)))) = false :=
    isPrefixOf_head_ne '#' c _ _ (Ne.symm hcH)
  have e3 : (str "### ").isPrefixOf
      ((c :: pre') ++ (c₀ :: c₀ :: (t ++ (c₀ :: c₀ :: post)))) = false :=
    isPrefixOf_head_ne '#' c _ _ (Ne.symm hcH)
  have e4 : (str "- ").isPrefixOf
      ((c :: pre') ++ (c₀ :: c₀ :: (t ++ (c₀ :: c₀ :: post)))) = false :=
    isPrefixOf_head_ne '-' c _ _ (Ne.symm hcD)
  have e5 : (str "* ").isPrefixOf
      ((c :: pre') ++ (c₀ :: c₀ :: (t ++ (c₀ :: c₀ :: post)))) = false :=
    isPrefixOf_head_ne '*' c _ _ (Ne.symm hcS)
  have hmatch : matchEmphAt (c₀ :: c₀ :: (t ++ (c₀ :: c₀ :: post))) =
      some (c₀ :: c₀ :: (t ++ [c₀, c₀]), post) := by
    rcases hc₀ with rfl | rfl
    · exact matchEmphAt_star t post (fun x hx => (ht x hx).1)
    · exact matchEmphAt_under t post (fun x hx => (ht x hx).2.1)
  have hfind :
      findEmph ((c :: pre') ++ (c₀ :: c₀ :: (t ++ (c₀ :: c₀ :: post)))) =
        some (c :: pre', c₀ :: c₀ :: (t ++ [c₀, c₀]), post) :=
    findEmph_prepend (c :: pre') _ _ _
      (fun x hx => ⟨(hpre x hx).1, (hpre x hx).2.1⟩) hmatch
  have hrest : findEmph post = none :=
    findEmph_none post (fun x hx => ⟨(hpost x hx).1, (hpost x hx).2.1⟩)
  have hsplit :
      splitEmph ((c :: pre') ++ (c₀ :: c₀ :: (t ++ (c₀ :: c₀ :: post)))) =
        [c :: pre', c₀ :: c₀ :: (t ++ [c₀, c₀]), post] :=
    splitEmph_single _ _ _ _ hfind hrest
      (by rw [List.cons_append]; simp)
  have hr1 : mkRun (c :: pre') = ⟨c :: pre', false, false⟩ :=
    mkRun_plain _ (fun x hx => ⟨(hpre x hx).1, (hpre x hx).2.1⟩)
  have hr2 : mkRun (c₀ :: c₀ :: (t ++ [c₀, c₀])) = ⟨t, true, false⟩ :=
    mkRun_bold2 c₀ hc₀ t
  have hr3 : mkRun post = ⟨post, false, false⟩ :=
    mkRun_plain _ (fun x hx => ⟨(hpost x hx).1, (hpost x hx).2.1⟩)
  simp only [lineToBlock]
  rw [htrim, if_neg hne, e1, if_neg Bool.false_ne_true, e2,
    if_neg Bool.false_ne_true, e3, if_neg Bool.false_ne_true, e4, e5,
    if_neg (by simp), hsplit]
  simp [hr1, hr2, hr3]

/-- Appending preserves freedom from line breaks. -/
theorem noNL_append (x y : Chars) (hx : noNL x) (hy : noNL y) :
    noNL (x ++ y) := by
  intro c hc
  rcases List.mem_append.mp hc with h | h
  · exact hx c h
  · exact hy c h

/-- Prepending a non-line-break character preserves freedom from line
breaks. -/
theorem noNL_cons (c₀ : Char) (h0 : c₀ ≠ '\n') (y : Chars) (hy : noNL y) :
    noNL (c₀ :: y) := by
  intro c hc
  rcases List.mem_cons.mp hc with rfl | h
  · exact h0
  · exact hy c h

/-! ## Claim C7: Markdown to word-processor structure -/

/-- C7: a Markdown chapter body made of a level-2 heading line, a
paragraph line holding one double-delimited bold span (`**text**` or
`__text__`), and a two-item hyphen list converts to exactly one heading-2
block, one paragraph block whose bold run carries the span's inner text
(with no italic run), and two list-item blocks, in source order; and the
double-delimiter alternatives of the split regex come first, so `**x**`
parses as one bold run rather than two italic markers. -/
theorem claim_C7_markdown_docx (h pre t post a b : Chars) (c₀ : Char)
    (hc₀ : c₀ = '*' ∨ c₀ = '_')
    (hhN : noNL h) (hh0 : h ≠ [])
    (hhL : ∀ c ∈ h.getLast?.toList, isWS c = false)
    (hpre : emphFree pre) (hpre0 : pre ≠ [])
    (hpreH : ∀ c ∈ pre.head?.toList, isWS c = false ∧ c ≠ '#' ∧ c ≠ '-')
    (ht : emphFree t)
    (hpost : emphFree post) (hpost0 : post ≠ [])
    (hpostL : ∀ c ∈ post.getLast?.toList, isWS c = false)
    (haN : noNL a) (ha0 : a ≠ [])
    (haL : ∀ c ∈ a.getLast?.toList, isWS c = false)
    (hbN : noNL b) (hb0 : b ≠ [])
    (hbL : ∀ c ∈ b.getLast?.toList, isWS c = false) :
    markdownToDocxParagraphs
      (((str "## ") ++ h) ++ ('\n' ::
        ((pre ++ (c₀ :: c₀ :: (t ++ (c₀ :: c₀ :: post)))) ++ ('\n' ::
          (((str "- ") ++ a) ++ ('\n' :: ((str "- ") ++ b))))))) =
      [DocxBlock.heading2 h,
       DocxBlock.textPara
         [⟨pre, false, false⟩, ⟨t, true, false⟩, ⟨post, false, false⟩],
       DocxBlock.bulletItem a, DocxBlock.bulletItem b] ∧
    markdownToDocxParagraphs (str "**x**") =
      [DocxBlock.textPara
        [⟨[], false, false⟩, ⟨['x'], true, false⟩, ⟨[], false, false⟩]] := by
  have hc₀n : c₀ ≠ '\n' := by rcases hc₀ with rfl | rfl <;> decide
  have hl1 : noNL ((str "## ") ++ h) :=
    noNL_append _ _ (by decide) hhN
  have hl2 : noNL (pre ++ (c₀ :: c₀ :: (t ++ (c₀ :: c₀ :: post)))) :=
    noNL_append _ _ (fun x hx => (hpre x hx).2.2)
      (noNL_cons c₀ hc₀n _ (noNL_cons c₀ hc₀n _
        (noNL_append _ _ (fun x hx => (ht x hx).2.2)
          (noNL_cons c₀ hc₀n _ (noNL_cons c₀ hc₀n _
            (fun x hx => (hpost x hx).2.2))))))
  have hl3 : noNL ((str "- ") ++ a) :=
    noNL_append _ _ (by decide) haN
  have hl4 : noNL ((str "- ") ++ b) :=
    noNL_append _ _ (by decide) hbN
  constructor
  · simp only [markdownToDocxParagraphs]
    rw [splitLines_cons_line _ _ hl1, splitLines_cons_line _ _ hl2,
      splitLines_cons_line _ _ hl3, splitLines_noNL _ hl4]
    simp only [List.map_cons, List.map_nil]
    rw [lineToBlock_h2 h hh0 hhL,
      lineToBlock_para c₀ hc₀ pre t post hpre hpre0 hpreH ht hpost
        hpost0 hpostL,
      lineToBlock_bullet a ha0 haL, lineToBlock_bullet b hb0 hbL]
  · decide

/-- Concrete instance of C7: the body
`## Section` / `This is **key** here.` / `- item one` / `- item two`
converts to the expected four blocks with a single bold run `key`. -/
theorem claim_C7_witness :
    markdownToDocxParagraphs
      (((str "## ") ++ str "Section") ++ ('\n' ::
        ((str "This is " ++
          ('*' :: '*' :: (str "key" ++ ('*' :: '*' :: str " here.")))) ++
          ('\n' :: (((str "- ") ++ str "item one") ++
            ('\n' :: ((str "- ") ++ str "item two"))))))) =
      [DocxBlock.heading2 (str "Section"),
       DocxBlock.textPara
         [⟨str "This is ", false, false⟩, ⟨str "key", true, false⟩,
          ⟨str " here.", false, false⟩],
       DocxBlock.bulletItem (str "item one"),
       DocxBlock.bulletItem (str "item two")] ∧
    markdownToDocxParagraphs (str "**x**") =
      [DocxBlock.textPara
        [⟨[], false, false⟩, ⟨['x'], true, false⟩, ⟨[], false, false⟩]] :=
  claim_C7_markdown_docx (str "Section") (str "This is ") (str "key")
    (str " here.") (str "item one") (str "item two") '*' (Or.inl rfl)
    (by decide) (by decide) (by decide) (by decide) (by decide) (by decide)
    (by decide) (by decide) (by decide) (by decide) (by decide) (by decide)
    (by decide) (by decide) (by decide) (by decide)

/-! ## Helper lemmas: decimal ids of the EPUB manifest -/

/-- The decimal digit characters decode back to their digit. -/
theorem digitChar_toNat (d : Nat) (h : d < 10) :
    (digitChar d).toNat = 48 + d := by
  interval_cases d <;> rfl

/-- Decoding after appending one digit character. -/
theorem decodeDec_append (xs : Chars) (c : Char) :
    decodeDec (xs ++ [c]) = decodeDec xs * 10 + (c.toNat - 48) := by
  simp [decodeDec, List.foldl_append]

/-- With enough fuel, the decimal conversion decodes back to its input. -/
theorem natReprGo_decode : ∀ (fuel n : Nat), n < 10 ^ fuel →
    decodeDec (natReprGo fuel n) = n := by
  intro fuel
  induction fuel with
  | zero =>
    intro n hn
    interval_cases n
    rfl
  | succ fuel ih =>
    intro n hn
    rw [natReprGo]
    by_cases h : n < 10
    · rw [if_pos h]
      have hd := digitChar_toNat n h
      simp [decodeDec, hd]
    · rw [if_neg h]
      have hdiv : n / 10 < 10 ^ fuel := by
        apply Nat.div_lt_of_lt_mul
        rw [← Nat.pow_succ']
        exact hn
      have hmod := digitChar_toNat (n % 10) (Nat.mod_lt n (by omega))
      rw [decodeDec_append, ih (n / 10) hdiv, hmod]
      omega

/-- The embedded JS decimal conversion is injective. -/
theorem natRepr_injective : Function.Injective natRepr := by
  have hdec : ∀ n, decodeDec (natRepr n) = n := by
    intro n
    apply natReprGo_decode
    calc n < 10 ^ n := Nat.lt_pow_self (by norm_num) n
    _ ≤ 10 ^ (n + 1) := Nat.pow_le_pow_right (by norm_num) (Nat.le_succ n)
  intro m n h
  have := hdec m
  rw [h, hdec n] at this
  exact this.symm

/-- The manifest ids produced for a file list starting at index `i`. -/
theorem manifestFor_ids : ∀ (files : List Chars) (i : Nat),
    (manifestFor i files).map (fun m => m.id) =
      (List.range' i files.length).map
        (fun j => str "item" ++ natRepr j) := by
  intro files
  induction files with
  | nil => intro i; rfl
  | cons f fs ih =>
    intro i
    simp only [manifestFor, List.map_cons, List.length_cons,
      List.range'_succ]
    rw [ih (i + 1)]

/-- The spine idrefs are exactly the manifest ids, in the same order. -/
theorem spineFor_eq_ids : ∀ (files : List Chars) (i : Nat),
    spineFor i files = (manifestFor i files).map (fun m => m.id) := by
  intro files
  induction files with
  | nil => intro i; rfl
  | cons f fs ih =>
    intro i
    simp only [spineFor, manifestFor, List.map_cons]
    rw [ih (i + 1)]

/-- One manifest entry per file. -/
theorem manifestFor_length : ∀ (files : List Chars) (i : Nat),
    (manifestFor i files).length = files.length := by
  intro files
  induction files with
  | nil => intro i; rfl
  | cons f fs ih =>
    intro i
    simp only [manifestFor, List.length_cons]
    rw [ih (i + 1)]

/-- Every generated content entry carries the XHTML media type. -/
theorem manifestFor_media : ∀ (files : List Chars) (i : Nat),
    ∀ m ∈ manifestFor i files, m.mediaType = MediaType.xhtml := by
  intro files
  induction files with
  | nil =>
    intro i m hm
    cases hm
  | cons f fs ih =>
    intro i m hm
    rcases List.mem_cons.mp hm with rfl | hm
    · rfl
    · exact ih (i + 1) m hm

/-- The `item${i}` ids are pairwise distinct. -/
theorem itemIds_nodup (i k : Nat) :
    ((List.range' i k).map (fun j => str "item" ++ natRepr j)).Nodup := by
  apply List.Nodup.map
  · intro m n h
    exact natRepr_injective (List.append_cancel_left h)
  · exact List.nodup_range' i k 1 (by norm_num)

/-- No `item${i}` id collides with the fixed `ncx` or `style` ids. -/
theorem itemId_ne_fixed (j : Nat) :
    str "item" ++ natRepr j ≠ str "ncx" ∧
    str "item" ++ natRepr j ≠ str "style" := by
  constructor
  · intro h
    have := congrArg List.head? h
    rw [show (str "item" ++ natRepr j).head? = some 'i' from rfl,
      show (str "ncx").head? = some 'n' from rfl] at this
    simp at this
  · intro h
    have := congrArg List.head? h
    rw [show (str "item" ++ natRepr j).head? = some 'i' from rfl,
      show (str "style").head? = some 's' from rfl] at this
    simp at this

/-! ## Claim C8: EPUB manifest and spine -/

/-- C8: for every book, the packaged e-book's manifest holds exactly
`n + 2` content-page entries (title page, toc page, one per chapter) — all
with pairwise distinct identifiers, also distinct from the fixed `ncx` and
`style` entries — these content entries are exactly the manifest's XHTML
entries, and the spine references all `n + 2` of them by id in exactly the
manifest's order. -/
theorem claim_C8_manifest_spine (fullChapters : List ChapterContent) :
    (contentManifestItems fullChapters).length = fullChapters.length + 2 ∧
    ((fullManifest fullChapters).map (fun m => m.id)).Nodup ∧
    spineIdrefs fullChapters =
      (contentManifestItems fullChapters).map (fun m => m.id) ∧
    (fullManifest fullChapters).filter
        (fun m => m.mediaType == MediaType.xhtml) =
      contentManifestItems fullChapters := by
  have hfiles : (chapterFiles fullChapters).length =
      fullChapters.length + 2 := by
    simp [chapterFiles]
  refine ⟨?_, ?_, ?_, ?_⟩
  · rw [contentManifestItems, manifestFor_length, hfiles]
  · rw [fullManifest]
    simp only [List.map_cons, List.nodup_cons]
    refine ⟨?_, ?_, ?_⟩
    · intro hmem
      simp only [List.mem_cons] at hmem
      rcases hmem with hcol | hmem
      · have := congrArg List.head? hcol
        rw [show (str "ncx").head? = some 'n' from rfl,
          show (str "style").head? = some 's' from rfl] at this
        simp at this
      · rw [contentManifestItems, manifestFor_ids] at hmem
        obtain ⟨j, -, hj⟩ := List.mem_map.mp hmem
        exact (itemId_ne_fixed j).1 hj
    · intro hmem
      rw [contentManifestItems, manifestFor_ids] at hmem
      obtain ⟨j, -, hj⟩ := List.mem_map.mp hmem
      exact (itemId_ne_fixed j).2 hj
    · rw [contentManifestItems, manifestFor_ids]
      exact itemIds_nodup 0 (chapterFiles fullChapters).length
  · rw [spineIdrefs, contentManifestItems]
    exact spineFor_eq_ids (chapterFiles fullChapters) 0
  · rw [fullManifest]
    rw [List.filter_cons_of_neg (by decide),
      List.filter_cons_of_neg (by decide)]
    apply List.filter_eq_self.mpr
    intro m hm
    have := manifestFor_media (chapterFiles fullChapters) 0 m hm
    simp [this]

end SOS
